import Mathlib

/-!
Formal model of the Tcp-Client repository (`src/client.rs`, `src/custom_types.rs`).

The embedding represents bytes as natural numbers below 256, byte buffers as
`List Nat`, and the two stateful routines of `TcpClient` as explicit state
machines driven by schedules of socket outcomes:

* `sendModel` embeds `TcpClient::send` (client.rs:57-105): the bincode
  serialization outcome is an input (bincode is an external library), the
  header/body write loops are `writeLoop`, and the schedule of `write` results
  is a list of `WriteEv`.
* `pumpStep` / `runPump` embed the body of the background loop spawned by
  `TcpClient::receive` (client.rs:107-170).  One `pumpStep` is one iteration
  of the `loop`: the header-decode/resize phase at the top, then one
  `socket.read` whose outcome is driven by one `Sched` entry.  Handler
  invocations are recorded as `Event`s; `exit(0)` is the `exit0` outcome.
-/

namespace TcpClientModel

/-- Little-endian encoding of `n` into `k` bytes, as in `u64::to_le_bytes`
(values at or above `2 ^ (8 * k)` are truncated, matching the machine word). -/
def leEncode : Nat → Nat → List Nat
  | 0, _ => []
  | k + 1, n => n % 256 :: leEncode k (n / 256)

/-- Little-endian decoding of a byte list, as in `usize::from_le_bytes`. -/
def leDecode : List Nat → Nat
  | [] => 0
  | b :: bs => b + 256 * leDecode bs

/-- Models `(data.len() as u64).to_le_bytes()` at client.rs:63. -/
def encode_header (len : Nat) : List Nat := leEncode 8 len

/-- Models `usize::from_le_bytes(arr)` applied to the first 8 buffer bytes at
client.rs:119-120. -/
def decode_header (bytes : List Nat) : Nat := leDecode bytes

/-- Models the `MessageType` enum of src/custom_types.rs. -/
inductive MessageType where
  | YouAreKicked
  | YouAreTimedout
  | ConnectionDropped
  | ClientSentMessage (idx : Nat)
  | ClientDisconnected (idx : Nat)
  | MessageDeserializeError
deriving DecidableEq

/-- Models the `Message` struct of src/custom_types.rs. -/
structure Message where
  message_type : MessageType
  body : Option (List Nat)
deriving DecidableEq

/-- Models bincode 1.x fixint little-endian serialization of `MessageType`:
a `u32` variant index followed by the variant fields (`usize` as `u64`). -/
def serializeMessageType : MessageType → List Nat
  | .YouAreKicked => leEncode 4 0
  | .YouAreTimedout => leEncode 4 1
  | .ConnectionDropped => leEncode 4 2
  | .ClientSentMessage idx => leEncode 4 3 ++ leEncode 8 idx
  | .ClientDisconnected idx => leEncode 4 4 ++ leEncode 8 idx
  | .MessageDeserializeError => leEncode 4 5

/-- Models `bincode::serialize::<Message>` (client.rs:61): the variant index,
then the `Option` tag byte, then for `Some` a `u64` length and the bytes. -/
def serializeMessage (m : Message) : List Nat :=
  serializeMessageType m.message_type ++
    (match m.body with
     | none => [0]
     | some b => 1 :: (leEncode 8 b.length ++ b))

/-- Reads a `k`-byte little-endian integer from the front of a byte list,
failing when fewer than `k` bytes remain, as bincode does. -/
def readLE (k : Nat) (bs : List Nat) : Option (Nat × List Nat) :=
  if bs.length < k then none else some (leDecode (bs.take k), bs.drop k)

/-- Models `bincode::deserialize::<Message>` (client.rs:144-145): a `u32`
variant index restricted to the six variants, `usize` fields as `u64`, the
`Option` tag byte restricted to 0 or 1, and a length-prefixed byte vector for
`Some` bodies.  Trailing bytes are ignored, as by `bincode::deserialize`. -/
def deserializeMessage (bs : List Nat) : Option Message :=
  match readLE 4 bs with
  | none => none
  | some (tag, rest) =>
    let mtOpt : Option (MessageType × List Nat) :=
      if tag = 0 then some (.YouAreKicked, rest)
      else if tag = 1 then some (.YouAreTimedout, rest)
      else if tag = 2 then some (.ConnectionDropped, rest)
      else if tag = 3 then
        match readLE 8 rest with
        | some (idx, r) => some (.ClientSentMessage idx, r)
        | none => none
      else if tag = 4 then
        match readLE 8 rest with
        | some (idx, r) => some (.ClientDisconnected idx, r)
        | none => none
      else if tag = 5 then some (.MessageDeserializeError, rest)
      else none
    match mtOpt with
    | none => none
    | some (mt, rest2) =>
      match rest2 with
      | [] => none
      | t :: r3 =>
        if t = 0 then some ⟨mt, none⟩
        else if t = 1 then
          match readLE 8 r3 with
          | none => none
          | some (len, r4) =>
            if r4.length < len then none else some ⟨mt, some (r4.take len)⟩
        else none

/-- The message handed to the handler for a complete frame body
(client.rs:144-154): the deserialized `Message` on success, otherwise a
`MessageDeserializeError` message with no body. -/
def dispatchMessage (payload : List Nat) : Message :=
  match deserializeMessage payload with
  | some m => m
  | none => ⟨.MessageDeserializeError, none⟩

/-- One outcome of `socket.write` in the send loops (client.rs:68, 85):
`accept n` is `Ok(min n remaining)` (the kernel accepted up to `n` bytes),
`wouldBlock` is `Err` of kind `WouldBlock`, and `fatal e` is any other
`Err`, with `e` standing for `e.kind().to_string()`. -/
inductive WriteEv where
  | accept (n : Nat)
  | wouldBlock
  | fatal (e : String)
deriving DecidableEq

/-- Result of running one of the two write loops of `TcpClient::send` over a
finite schedule: `complete` returns the bytes put on the socket and the
unconsumed schedule, `failed` is the early return on a non-would-block error,
`exhausted` means the schedule ended while the loop was still running.
`sleeps` counts executed `thread::sleep(50ms)` calls (client.rs:76, 93). -/
inductive LoopOut where
  | complete (sent : List Nat) (evs : List WriteEv) (sleeps : Nat)
  | failed (e : String) (sent : List Nat) (sleeps : Nat)
  | exhausted (written : Nat) (sent : List Nat) (sleeps : Nat)
deriving DecidableEq

/-- Prepends a chunk of sent bytes to a loop outcome. -/
def addChunk (c : List Nat) : LoopOut → LoopOut
  | .complete s r k => .complete (c ++ s) r k
  | .failed e s k => .failed e (c ++ s) k
  | .exhausted w s k => .exhausted w (c ++ s) k

/-- Records one 50 ms would-block sleep in a loop outcome. -/
def addSleep : LoopOut → LoopOut
  | .complete s r k => .complete s r (k + 1)
  | .failed e s k => .failed e s (k + 1)
  | .exhausted w s k => .exhausted w s (k + 1)

/-- Models the write loops of `TcpClient::send` (client.rs:67-82 for the
header with `span = header`, client.rs:84-99 for the body with `span = data`):
`while written < span.length` issue `socket.write(&span[written..])`; on
`Ok(size)` add `size` to `written` when positive; on would-block sleep and
retry; on any other error return it at once. -/
def writeLoop (span : List Nat) : Nat → List WriteEv → LoopOut
  | written, evs =>
    if span.length ≤ written then .complete [] evs 0
    else
      match evs with
      | [] => .exhausted written [] 0
      | WriteEv.accept n :: rest =>
        let size := min n (span.length - written)
        if 0 < size then
          addChunk ((span.drop written).take size) (writeLoop span (written + size) rest)
        else writeLoop span written rest
      | WriteEv.wouldBlock :: rest => addSleep (writeLoop span written rest)
      | WriteEv.fatal e :: _ => .failed e [] 0

/-- Overall result of `TcpClient::send`: `done`/`err` mirror `Ok(())` and
`Err(..)`, carrying the byte stream actually written to the socket;
`incomplete` means the finite schedule ended mid-loop. -/
inductive SendOut where
  | done (stream : List Nat)
  | err (e : String) (stream : List Nat)
  | incomplete (stream : List Nat)
deriving DecidableEq

/-- Models `TcpClient::send` (client.rs:57-105).  The bincode serialization
outcome is passed in (`Except.error e` models `bincode::serialize` failing
with display string `e`); on success the 8-byte header is written by one
`writeLoop`, then the body by a second one over the remaining schedule. -/
def sendModel (ser : Except String (List Nat)) (evs : List WriteEv) : SendOut :=
  match ser with
  | .error e => .err ("Serialization error: " ++ e) []
  | .ok data =>
    let header := encode_header data.length
    match writeLoop header 0 evs with
    | .failed e sent _ => .err e sent
    | .exhausted _ sent _ => .incomplete sent
    | .complete sent evs2 _ =>
      match writeLoop data 0 evs2 with
      | .failed e sent2 _ => .err e (sent ++ sent2)
      | .exhausted _ sent2 _ => .incomplete (sent ++ sent2)
      | .complete sent2 _ _ => .done (sent ++ sent2)

/-- `TcpClient::send` applied to a `Message` that bincode serializes. -/
def send (m : Message) (evs : List WriteEv) : SendOut :=
  sendModel (Except.ok (serializeMessage m)) evs

/-- The mutable local state of the receive loop (client.rs:112-114):
`buffer`, `read_bytes` and `amount_to_read`. -/
structure ReaderState where
  buffer : List Nat
  read_bytes : Nat
  amount_to_read : Nat
deriving DecidableEq

/-- The state at client.rs:112-114: `vec![0; 8]`, `0`, `0`. -/
def initState : ReaderState := ⟨List.replicate 8 0, 0, 0⟩

/-- Models `Vec::resize(n, 0)` (client.rs:123, 155). -/
def vecResize (l : List Nat) (n : Nat) : List Nat :=
  if n ≤ l.length then l.take n else l ++ List.replicate (n - l.length) 0

/-- The top of each loop iteration (client.rs:118-125): when at least 8 bytes
are buffered, decode the header into `amount_to_read` and resize the buffer
to `8 + amount_to_read` if its length differs. -/
def headerPhase (st : ReaderState) : ReaderState :=
  if 8 ≤ st.read_bytes then
    let amount := decode_header (st.buffer.take 8)
    let buf :=
      if st.buffer.length ≠ 8 + amount then vecResize st.buffer (8 + amount) else st.buffer
    ⟨buf, st.read_bytes, amount⟩
  else st

/-- Models `socket.read(&mut buffer[read_bytes..])` landing `bytes` at
position `pos` of the buffer, leaving the rest unchanged. -/
def writeAt (l : List Nat) (pos : Nat) (bytes : List Nat) : List Nat :=
  l.take pos ++ bytes ++ l.drop (pos + bytes.length)

/-- A recorded handler invocation: `payload` is the raw frame body for frame
dispatches (client.rs:144-154) and `none` for the connection-dropped dispatch
(client.rs:130-135); `msg` is the `Message` value passed to the handler. -/
inductive Event where
  | dispatch (payload : Option (List Nat)) (msg : Message)
deriving DecidableEq

/-- The handler invocation performed when a read returns zero bytes. -/
def droppedEvent : Event := .dispatch none ⟨.ConnectionDropped, none⟩

/-- Environment outcome of one `socket.read` (client.rs:127): `avail n` means
up to `n` stream bytes are ready (the call returns `Ok` of the number
actually copied, `0` when the destination slice is empty); `wouldBlock` and
`ioErr` are the two `Err` cases; `closed` is `Ok(0)` from a peer close. -/
inductive Sched where
  | avail (n : Nat)
  | wouldBlock
  | ioErr
  | closed
deriving DecidableEq

/-- Result of one loop iteration: `cont` carries the new state, the unread
remainder of the socket stream, the handler invocations made, and whether
the iteration slept (client.rs:164); `exit0` models `exit(0)`
(client.rs:136). -/
inductive StepOut where
  | cont (st : ReaderState) (pending : List Nat) (events : List Event) (slept : Bool)
  | exit0 (events : List Event)
deriving DecidableEq

/-- One iteration of the receive loop (client.rs:117-168).  `pending` is the
stream of socket bytes not yet copied into the buffer.  A read copies
`min n (min space pending.length)` bytes into `buffer[read_bytes..]`; a
result of zero with an empty destination slice or a closed peer takes the
`size == 0` branch (dispatch `ConnectionDropped`, then `exit(0)`); zero bytes
with room available is a would-block in nonblocking mode.  On frame
completion (`amount_to_read > 0 && read_bytes == 8 + amount_to_read`) the
body `buffer[8..]` is deserialized and dispatched, and the state is reset
(client.rs:155-157). -/
def pumpStep (st : ReaderState) (pending : List Nat) (s : Sched) : StepOut :=
  let st1 := headerPhase st
  let space := st1.buffer.length - st1.read_bytes
  match s with
  | .wouldBlock => .cont st1 pending [] true
  | .ioErr => .cont st1 pending [] false
  | .closed => .exit0 [droppedEvent]
  | .avail n =>
    if space = 0 then .exit0 [droppedEvent]
    else
      let size := min n (min space pending.length)
      if size = 0 then .cont st1 pending [] true
      else
        let buf := writeAt st1.buffer st1.read_bytes (pending.take size)
        let rb := st1.read_bytes + size
        if 0 < st1.amount_to_read ∧ rb = 8 + st1.amount_to_read then
          let payload := buf.drop 8
          .cont ⟨vecResize buf 8, 0, 0⟩ (pending.drop size)
            [.dispatch (some payload) (dispatchMessage payload)] false
        else .cont ⟨buf, rb, st1.amount_to_read⟩ (pending.drop size) [] false

/-- Result of running the loop over a finite schedule: `pend` is the state,
unread stream and accumulated handler invocations when the schedule ends with
the loop still running; `exited` means `exit(0)` was reached. -/
inductive RunOut where
  | pend (st : ReaderState) (pending : List Nat) (events : List Event)
  | exited (events : List Event)
deriving DecidableEq

/-- Runs the receive loop over a schedule of read outcomes. -/
def runPump (st : ReaderState) (pending : List Nat) : List Sched → RunOut
  | [] => .pend st pending []
  | s :: rest =>
    match pumpStep st pending s with
    | .exit0 evs => .exited evs
    | .cont st' p' evs _ =>
      match runPump st' p' rest with
      | .pend st2 p2 evs2 => .pend st2 p2 (evs ++ evs2)
      | .exited evs2 => .exited (evs ++ evs2)

/-- The receive loop run alongside the spec's shutdown signal.  The source
loop body (client.rs:117-168) contains no check of any shutdown flag or
channel, so the signal is never consulted and the run is exactly
`runPump`. -/
def runPumpShutdown (shutdownSignaled : Bool) (st : ReaderState) (pending : List Nat)
    (sched : List Sched) : RunOut :=
  runPump st pending sched

/-- The on-wire bytes of one frame carrying payload `p`. -/
def encodeFrame (p : List Nat) : List Nat := encode_header p.length ++ p

/-- The concatenated on-wire bytes of a sequence of back-to-back frames. -/
def frameStream : List (List Nat) → List Nat
  | [] => []
  | p :: ps => encodeFrame p ++ frameStream ps

/-- The expected handler invocations for a sequence of frame payloads. -/
def dispatchList (frames : List (List Nat)) : List Event :=
  frames.map (fun p => .dispatch (some p) (dispatchMessage p))

/-- Payload lengths realizable as nonempty frames on a 64-bit machine. -/
def GoodFrames (ps : List (List Nat)) : Prop :=
  ∀ p ∈ ps, 0 < p.length ∧ p.length < 2 ^ 64

/-- Loop-top description of the reader state while the remaining input
consists of the frames `ps`, with `k` bytes of the current frame already
buffered. -/
def FrameInv : List (List Nat) → Nat → ReaderState → List Nat → Prop
  | [], k, st, pending =>
    k = 0 ∧ st.read_bytes = 0 ∧ st.buffer.length = 8 ∧ st.amount_to_read = 0 ∧ pending = []
  | p :: rest, k, st, pending =>
    st.read_bytes = k ∧
    st.buffer.take k = (encodeFrame p).take k ∧
    pending = (encodeFrame p).drop k ++ frameStream rest ∧
    ((k ≤ 8 ∧ st.buffer.length = 8 ∧ st.amount_to_read = 0) ∨
     (8 ≤ k ∧ k < 8 + p.length ∧ st.buffer.length = 8 + p.length ∧
       st.amount_to_read = p.length))

/-- Safety invariant of the reader state: the buffer always holds the 8-byte
header region, and `read_bytes` never passes the end of the buffer, so
`buffer[0..8].try_into().unwrap()` (client.rs:119), `buffer[read_bytes..]`
(client.rs:127) and `buffer[8..]` (client.rs:145) are all in bounds. -/
def ReaderInv (st : ReaderState) : Prop :=
  8 ≤ st.buffer.length ∧ st.read_bytes ≤ st.buffer.length ∧
  (st.read_bytes < 8 → st.buffer.length = 8) ∧
  (8 ≤ st.read_bytes → st.read_bytes ≤ 8 + decode_header (st.buffer.take 8))

/-! Basic facts about the codec and buffer primitives. -/

lemma leEncode_length (k n : Nat) : (leEncode k n).length = k := by
  induction k generalizing n with
  | zero => rfl
  | succ k ih => simp [leEncode, ih]

lemma leDecode_leEncode (k n : Nat) : leDecode (leEncode k n) = n % 256 ^ k := by
  induction k generalizing n with
  | zero => simp [leEncode, leDecode, Nat.mod_one]
  | succ k ih =>
    rw [leEncode, leDecode, ih, Nat.pow_succ']
    exact Nat.mod_mul.symm

lemma encode_header_length (len : Nat) : (encode_header len).length = 8 :=
  leEncode_length 8 len

lemma decode_encode_header (len : Nat) (h : len < 2 ^ 64) :
    decode_header (encode_header len) = len := by
  have h256 : (256 : Nat) ^ 8 = 2 ^ 64 := by norm_num
  rw [decode_header, encode_header, leDecode_leEncode, h256, Nat.mod_eq_of_lt h]

lemma vecResize_length (l : List Nat) (n : Nat) : (vecResize l n).length = n := by
  unfold vecResize
  by_cases h : n ≤ l.length <;> simp [h] <;> omega

lemma vecResize_take8 (l : List Nat) (n : Nat) (h8l : 8 ≤ l.length) (h8n : 8 ≤ n) :
    (vecResize l n).take 8 = l.take 8 := by
  unfold vecResize
  by_cases h : n ≤ l.length
  · simp [h, List.take_take, Nat.min_eq_left h8n]
  · simp [h, List.take_append_of_le_length h8l]

lemma writeAt_length (l b : List Nat) (pos : Nat) (h : pos + b.length ≤ l.length) :
    (writeAt l pos b).length = l.length := by
  unfold writeAt
  simp
  omega

lemma writeAt_take (l b : List Nat) (pos : Nat) (h : pos ≤ l.length) :
    (writeAt l pos b).take (pos + b.length) = l.take pos ++ b := by
  unfold writeAt
  have hlen : (l.take pos ++ b).length = pos + b.length := by
    simp [Nat.min_eq_left h]
  rw [List.take_append_of_le_length (le_of_eq hlen.symm), ← hlen, List.take_length]

lemma writeAt_take8 (l b : List Nat) (pos : Nat) (h8 : 8 ≤ pos) (hp : pos ≤ l.length) :
    (writeAt l pos b).take 8 = l.take 8 := by
  unfold writeAt
  have hlen : 8 ≤ (l.take pos).length := by simp [Nat.min_eq_left hp]; omega
  rw [List.append_assoc, List.take_append_of_le_length hlen, List.take_take,
    Nat.min_eq_left h8]

/-- Claim C2: for every payload byte sequence `p` (its length is a `usize`,
hence below `2 ^ 64`), decoding the 8-byte little-endian header produced by
encoding `p.length` yields `p.length` back. -/
theorem header_roundtrip (p : List Nat) (h : p.length < 2 ^ 64) :
    decode_header (encode_header p.length) = p.length :=
  decode_encode_header p.length h

theorem header_roundtrip_witness :
    ([5, 6, 7] : List Nat).length < 2 ^ 64 ∧
      decode_header (encode_header ([5, 6, 7] : List Nat).length) =
        ([5, 6, 7] : List Nat).length :=
  ⟨by norm_num, header_roundtrip [5, 6, 7] (by norm_num)⟩

/-- Claim C5: a read returning zero bytes (peer close) makes the pump invoke
the handler exactly once, with the `ConnectionDropped` typed `Message` and no
payload, and then terminate via `exit(0)`: the rest of the schedule is never
consulted, so no further reads are scheduled. -/
theorem zero_read_drops (st : ReaderState) (pending : List Nat) (rest : List Sched) :
    runPump st pending (Sched.closed :: rest) = RunOut.exited [droppedEvent] ∧
      droppedEvent = Event.dispatch none ⟨MessageType.ConnectionDropped, none⟩ :=
  ⟨rfl, rfl⟩

/-- Claim C9: a read failing with any error other than would-block is
swallowed silently: no handler invocation, no termination, the state and the
unread stream are untouched, and the loop retries at once (`slept = false`,
in contrast with the would-block case where `slept = true`). -/
theorem read_error_swallowed (st : ReaderState) (pending : List Nat) (rest : List Sched) :
    pumpStep st pending Sched.ioErr = StepOut.cont (headerPhase st) pending [] false ∧
      pumpStep st pending Sched.wouldBlock = StepOut.cont (headerPhase st) pending [] true ∧
      runPump st pending (Sched.ioErr :: rest) = runPump (headerPhase st) pending rest := by
  refine ⟨rfl, rfl, ?_⟩
  show (match runPump (headerPhase st) pending rest with
    | RunOut.pend st2 p2 evs2 => RunOut.pend st2 p2 ([] ++ evs2)
    | RunOut.exited evs2 => RunOut.exited ([] ++ evs2)) = runPump (headerPhase st) pending rest
  cases runPump (headerPhase st) pending rest <;> simp

/-- Claim C7: when bincode serialization of the `Message` fails, `send`
returns the distinct serialization error (the error string is prefixed with
"Serialization error: ", unlike I/O errors which are passed through as the
error kind) and writes no bytes whatsoever to the socket. -/
theorem serialize_failure_writes_nothing (e : String) (evs : List WriteEv) :
    sendModel (Except.error e) evs = SendOut.err ("Serialization error: " ++ e) [] :=
  rfl

/-! Unfolding equations for the send write loop. -/

lemma writeLoop_done (span : List Nat) (written : Nat) (evs : List WriteEv)
    (h : span.length ≤ written) : writeLoop span written evs = .complete [] evs 0 := by
  rw [writeLoop.eq_def]
  simp [h]

lemma writeLoop_nil (span : List Nat) (written : Nat) (h : ¬ span.length ≤ written) :
    writeLoop span written [] = .exhausted written [] 0 := by
  rw [writeLoop.eq_def]
  simp [h]

lemma writeLoop_accept (span : List Nat) (written n : Nat) (rest : List WriteEv)
    (h : ¬ span.length ≤ written) :
    writeLoop span written (WriteEv.accept n :: rest) =
      (if 0 < min n (span.length - written) then
        addChunk ((span.drop written).take (min n (span.length - written)))
          (writeLoop span (written + min n (span.length - written)) rest)
      else writeLoop span written rest) := by
  rw [writeLoop.eq_def]
  simp [h]

lemma writeLoop_wouldBlock (span : List Nat) (written : Nat) (rest : List WriteEv)
    (h : ¬ span.length ≤ written) :
    writeLoop span written (WriteEv.wouldBlock :: rest) =
      addSleep (writeLoop span written rest) := by
  rw [writeLoop.eq_def]
  simp [h]

lemma writeLoop_fatal (span : List Nat) (written : Nat) (e : String) (rest : List WriteEv)
    (h : ¬ span.length ≤ written) :
    writeLoop span written (WriteEv.fatal e :: rest) = .failed e [] 0 := by
  rw [writeLoop.eq_def]
  simp [h]

lemma writeLoop_complete (span : List Nat) (evs : List WriteEv) :
    ∀ (written : Nat) (sent : List Nat) (r : List WriteEv) (k : Nat),
      writeLoop span written evs = LoopOut.complete sent r k → sent = span.drop written := by
  induction evs with
  | nil =>
    intro written sent r k h
    by_cases hw : span.length ≤ written
    · rw [writeLoop_done span written [] hw] at h
      cases h
      exact (List.drop_eq_nil_of_le hw).symm
    · rw [writeLoop_nil span written hw] at h
      cases h
  | cons ev rest ih =>
    intro written sent r k h
    by_cases hw : span.length ≤ written
    · rw [writeLoop_done span written _ hw] at h
      cases h
      exact (List.drop_eq_nil_of_le hw).symm
    · match ev with
      | WriteEv.accept n =>
        rw [writeLoop_accept span written n rest hw] at h
        by_cases hsz : 0 < min n (span.length - written)
        · rw [if_pos hsz] at h
          cases hrec : writeLoop span (written + min n (span.length - written)) rest with
          | complete s' r' k' =>
            rw [hrec] at h
            simp only [addChunk] at h
            cases h
            rw [ih _ _ _ _ hrec, ← List.drop_drop, List.take_append_drop]
          | failed e s' k' =>
            rw [hrec] at h
            simp [addChunk] at h
          | exhausted w s' k' =>
            rw [hrec] at h
            simp [addChunk] at h
        · rw [if_neg hsz] at h
          exact ih _ _ _ _ h
      | WriteEv.wouldBlock =>
        rw [writeLoop_wouldBlock span written rest hw] at h
        cases hrec : writeLoop span written rest with
        | complete s' r' k' =>
          rw [hrec] at h
          simp only [addSleep] at h
          cases h
          exact ih _ _ _ _ hrec
        | failed e s' k' =>
          rw [hrec] at h
          simp [addSleep] at h
        | exhausted w s' k' =>
          rw [hrec] at h
          simp [addSleep] at h
      | WriteEv.fatal e =>
        rw [writeLoop_fatal span written e rest hw] at h
        cases h

/-- Claim C3: a completed `send` has written exactly the 8-byte header
followed by the full payload; a would-block write performs one sleep and
retries with all accumulated progress intact; any other I/O error makes the
loop return that error to the caller immediately, consuming no further write
outcomes. -/
theorem send_header_then_body :
    (∀ (data : List Nat) (evs : List WriteEv) (sent : List Nat),
      sendModel (Except.ok data) evs = SendOut.done sent →
        sent = encode_header data.length ++ data ∧
          (encode_header data.length).length = 8) ∧
    (∀ (span : List Nat) (written : Nat) (rest : List WriteEv), written < span.length →
      writeLoop span written (WriteEv.wouldBlock :: rest) =
        addSleep (writeLoop span written rest)) ∧
    (∀ (span : List Nat) (written : Nat) (e : String) (rest : List WriteEv),
      written < span.length →
        writeLoop span written (WriteEv.fatal e :: rest) = LoopOut.failed e [] 0) := by
  refine ⟨?_, ?_, ?_⟩
  · intro data evs sent h
    simp only [sendModel] at h
    cases hrec1 : writeLoop (encode_header data.length) 0 evs with
    | complete s1 r1 k1 =>
      rw [hrec1] at h
      dsimp only at h
      cases hrec2 : writeLoop data 0 r1 with
      | complete s2 r2 k2 =>
        rw [hrec2] at h
        dsimp only at h
        simp only [SendOut.done.injEq] at h
        subst h
        rw [writeLoop_complete _ _ _ _ _ _ hrec1, writeLoop_complete _ _ _ _ _ _ hrec2]
        exact ⟨by simp, encode_header_length data.length⟩
      | failed e s2 k2 =>
        rw [hrec2] at h
        dsimp only at h
        cases h
      | exhausted w s2 k2 =>
        rw [hrec2] at h
        dsimp only at h
        cases h
    | failed e s1 k1 =>
      rw [hrec1] at h
      dsimp only at h
      cases h
    | exhausted w s1 k1 =>
      rw [hrec1] at h
      dsimp only at h
      cases h
  · intro span written rest h
    exact writeLoop_wouldBlock span written rest (by omega)
  · intro span written e rest h
    exact writeLoop_fatal span written e rest (by omega)

theorem send_header_then_body_witness :
    sendModel (Except.ok [7]) [WriteEv.accept 8, WriteEv.accept 1] =
      SendOut.done [1, 0, 0, 0, 0, 0, 0, 0, 7] ∧
      ([1, 0, 0, 0, 0, 0, 0, 0, 7] : List Nat) =
        encode_header ([7] : List Nat).length ++ [7] := by
  have h : sendModel (Except.ok [7]) [WriteEv.accept 8, WriteEv.accept 1] =
      SendOut.done [1, 0, 0, 0, 0, 0, 0, 0, 7] := by decide
  exact ⟨h, (send_header_then_body.1 [7] _ _ h).1⟩

/-! Unfolding equations for the pump. -/

lemma headerPhase_eq (st : ReaderState) :
    headerPhase st =
      (if 8 ≤ st.read_bytes then
        (⟨if st.buffer.length ≠ 8 + decode_header (st.buffer.take 8) then
            vecResize st.buffer (8 + decode_header (st.buffer.take 8))
          else st.buffer,
          st.read_bytes, decode_header (st.buffer.take 8)⟩ : ReaderState)
      else st) := rfl

lemma headerPhase_read_bytes (st : ReaderState) :
    (headerPhase st).read_bytes = st.read_bytes := by
  rw [headerPhase_eq]
  by_cases hc : 8 ≤ st.read_bytes <;> simp [hc]

lemma headerPhase_lt (st : ReaderState) (hc : ¬ 8 ≤ st.read_bytes) : headerPhase st = st := by
  rw [headerPhase_eq, if_neg hc]

lemma headerPhase_len (st : ReaderState) (hc : 8 ≤ st.read_bytes) (h8 : 8 ≤ st.buffer.length) :
    (headerPhase st).buffer.length = 8 + (headerPhase st).amount_to_read ∧
      (headerPhase st).amount_to_read = decode_header ((headerPhase st).buffer.take 8) ∧
      (headerPhase st).read_bytes = st.read_bytes := by
  rw [headerPhase_eq, if_pos hc]
  set d := decode_header (st.buffer.take 8) with hd
  by_cases hne : st.buffer.length ≠ 8 + d
  · rw [if_pos hne]
    refine ⟨by simp [vecResize_length], ?_, rfl⟩
    dsimp only
    rw [vecResize_take8 st.buffer _ h8 (by omega), ← hd]
  · rw [if_neg hne]
    push_neg at hne
    exact ⟨hne, hd, rfl⟩

lemma pumpStep_wouldBlock (st : ReaderState) (pending : List Nat) :
    pumpStep st pending Sched.wouldBlock = .cont (headerPhase st) pending [] true := rfl

lemma pumpStep_ioErr (st : ReaderState) (pending : List Nat) :
    pumpStep st pending Sched.ioErr = .cont (headerPhase st) pending [] false := rfl

lemma pumpStep_closed (st : ReaderState) (pending : List Nat) :
    pumpStep st pending Sched.closed = .exit0 [droppedEvent] := rfl

lemma pumpStep_avail (st st1 : ReaderState) (pending : List Nat) (n size : Nat)
    (h1 : headerPhase st = st1)
    (hsz : size = min n (min (st1.buffer.length - st1.read_bytes) pending.length)) :
    pumpStep st pending (Sched.avail n) =
      (if st1.buffer.length - st1.read_bytes = 0 then StepOut.exit0 [droppedEvent]
      else if size = 0 then StepOut.cont st1 pending [] true
      else if 0 < st1.amount_to_read ∧ st1.read_bytes + size = 8 + st1.amount_to_read then
        StepOut.cont
          ⟨vecResize (writeAt st1.buffer st1.read_bytes (pending.take size)) 8, 0, 0⟩
          (pending.drop size)
          [Event.dispatch (some ((writeAt st1.buffer st1.read_bytes (pending.take size)).drop 8))
            (dispatchMessage ((writeAt st1.buffer st1.read_bytes (pending.take size)).drop 8))]
          false
      else
        StepOut.cont
          ⟨writeAt st1.buffer st1.read_bytes (pending.take size),
            st1.read_bytes + size, st1.amount_to_read⟩
          (pending.drop size) [] false) := by
  subst h1
  subst hsz
  rfl

/-- Claim C1: when a read completes a frame (`amount_to_read > 0` and the new
`read_bytes` equals `8 + amount_to_read`), the pump hands exactly the payload
slice `buffer[8..]` of the post-read buffer to the registered handler (via
bincode deserialization), then resets the buffer to 8 bytes with
`read_bytes = 0` and `amount_to_read = 0` and continues the loop awaiting the
next frame. -/
theorem frame_complete_dispatch (st st1 : ReaderState) (pending : List Nat) (n size : Nat)
    (h1 : headerPhase st = st1)
    (hsz : size = min n (min (st1.buffer.length - st1.read_bytes) pending.length))
    (hamt : 0 < st1.amount_to_read)
    (hpos : 0 < size)
    (hfull : st1.read_bytes + size = 8 + st1.amount_to_read) :
    pumpStep st pending (Sched.avail n) =
      StepOut.cont
        ⟨vecResize (writeAt st1.buffer st1.read_bytes (pending.take size)) 8, 0, 0⟩
        (pending.drop size)
        [Event.dispatch (some ((writeAt st1.buffer st1.read_bytes (pending.take size)).drop 8))
          (dispatchMessage ((writeAt st1.buffer st1.read_bytes (pending.take size)).drop 8))]
        false ∧
      (vecResize (writeAt st1.buffer st1.read_bytes (pending.take size)) 8).length = 8 := by
  have hspace : ¬ (st1.buffer.length - st1.read_bytes = 0) := by
    intro h0
    rw [h0] at hsz
    simp [Nat.zero_min, Nat.min_zero] at hsz
    omega
  rw [pumpStep_avail st st1 pending n size h1 hsz, if_neg hspace,
    if_neg (by omega : ¬ size = 0), if_pos ⟨hamt, hfull⟩]
  exact ⟨rfl, vecResize_length _ 8⟩

theorem frame_complete_dispatch_witness :
    pumpStep ⟨[2, 0, 0, 0, 0, 0, 0, 0], 8, 0⟩ [5, 6] (Sched.avail 2) =
      StepOut.cont ⟨[2, 0, 0, 0, 0, 0, 0, 0], 0, 0⟩ []
        [Event.dispatch (some [5, 6]) ⟨MessageType.MessageDeserializeError, none⟩] false := by
  have h := (frame_complete_dispatch ⟨[2, 0, 0, 0, 0, 0, 0, 0], 8, 0⟩
    ⟨[2, 0, 0, 0, 0, 0, 0, 0, 0, 0], 8, 2⟩ [5, 6] 2 2 (by decide) (by decide)
    (by decide) (by decide) (by decide)).1
  rw [h]
  decide

/-! Preservation of the reader safety invariant. -/

lemma readerInv_init : ReaderInv initState := by
  unfold ReaderInv initState
  decide

lemma readerInv_headerPhase (st : ReaderState) (h : ReaderInv st) :
    ReaderInv (headerPhase st) := by
  obtain ⟨h8, hrb, hlt, hge⟩ := h
  rw [headerPhase_eq]
  by_cases hc : 8 ≤ st.read_bytes
  · rw [if_pos hc]
    set d := decode_header (st.buffer.take 8) with hd
    have hrbd : st.read_bytes ≤ 8 + d := hge hc
    by_cases hne : st.buffer.length ≠ 8 + d
    · rw [if_pos hne]
      unfold ReaderInv
      dsimp only
      rw [vecResize_length]
      refine ⟨by omega, hrbd, by omega, fun _ => ?_⟩
      rw [vecResize_take8 st.buffer _ h8 (by omega), ← hd]
      exact hrbd
    · rw [if_neg hne]
      push_neg at hne
      unfold ReaderInv
      dsimp only
      refine ⟨h8, hrb, fun hlt8 => absurd hc (by omega), fun _ => ?_⟩
      rw [← hd]
      exact hrbd
  · rw [if_neg hc]
    exact ⟨h8, hrb, hlt, hge⟩

lemma readerInv_step (st : ReaderState) (pending : List Nat) (s : Sched)
    (st' : ReaderState) (pending' : List Nat) (evs : List Event) (slept : Bool)
    (h : ReaderInv st) (hs : pumpStep st pending s = StepOut.cont st' pending' evs slept) :
    ReaderInv st' := by
  have h1 : ReaderInv (headerPhase st) := readerInv_headerPhase st h
  cases s with
  | wouldBlock =>
    rw [pumpStep_wouldBlock] at hs
    simp only [StepOut.cont.injEq] at hs
    obtain ⟨h2, -, -, -⟩ := hs
    rw [← h2]
    exact h1
  | ioErr =>
    rw [pumpStep_ioErr] at hs
    simp only [StepOut.cont.injEq] at hs
    obtain ⟨h2, -, -, -⟩ := hs
    rw [← h2]
    exact h1
  | closed =>
    rw [pumpStep_closed] at hs
    simp at hs
  | avail n =>
    rw [pumpStep_avail st (headerPhase st) pending n
      (min n (min ((headerPhase st).buffer.length - (headerPhase st).read_bytes)
        pending.length)) rfl rfl] at hs
    set st1 := headerPhase st with hst1
    set size := min n (min (st1.buffer.length - st1.read_bytes) pending.length) with hsize
    by_cases hsp : st1.buffer.length - st1.read_bytes = 0
    · rw [if_pos hsp] at hs
      simp at hs
    · rw [if_neg hsp] at hs
      by_cases hz : size = 0
      · rw [if_pos hz] at hs
        simp only [StepOut.cont.injEq] at hs
        obtain ⟨h2, -, -, -⟩ := hs
        rw [← h2]
        exact h1
      · rw [if_neg hz] at hs
        have hsle : size ≤ st1.buffer.length - st1.read_bytes := by
          rw [hsize]
          exact le_trans (Nat.min_le_right _ _) (Nat.min_le_left _ _)
        have hple : size ≤ pending.length := by
          rw [hsize]
          exact le_trans (Nat.min_le_right _ _) (Nat.min_le_right _ _)
        obtain ⟨hI1, hI2, hI3, hI4⟩ := h1
        have hblen : (pending.take size).length = size := by
          rw [List.length_take, Nat.min_eq_left hple]
        have hposle : st1.read_bytes + size ≤ st1.buffer.length := by omega
        have hlen := writeAt_length st1.buffer (pending.take size) st1.read_bytes
          (by rw [hblen]; exact hposle)
        by_cases hdisp : 0 < st1.amount_to_read ∧
            st1.read_bytes + size = 8 + st1.amount_to_read
        · rw [if_pos hdisp] at hs
          simp only [StepOut.cont.injEq] at hs
          obtain ⟨h2, -, -, -⟩ := hs
          rw [← h2]
          unfold ReaderInv
          dsimp only
          rw [vecResize_length]
          exact ⟨by omega, by omega, fun _ => rfl, by omega⟩
        · rw [if_neg hdisp] at hs
          simp only [StepOut.cont.injEq] at hs
          obtain ⟨h2, -, -, -⟩ := hs
          rw [← h2]
          unfold ReaderInv
          dsimp only
          rw [hlen]
          refine ⟨hI1, hposle, fun hlt8 => hI3 (by omega), fun hge8 => ?_⟩
          by_cases hrb8 : 8 ≤ st1.read_bytes
          · have hrbst : st1.read_bytes = st.read_bytes := by
              rw [hst1]
              exact headerPhase_read_bytes st
            have hspec := headerPhase_len st (by omega) h.1
            rw [← hst1] at hspec
            rw [writeAt_take8 st1.buffer (pending.take size) st1.read_bytes hrb8
              (by omega), ← hspec.2.1]
            omega
          · have hl8 : st1.buffer.length = 8 := hI3 (by omega)
            have hD := Nat.zero_le
              (decode_header ((writeAt st1.buffer st1.read_bytes (pending.take size)).take 8))
            omega

/-- Claim C10: throughout the pump loop the buffer keeps at least its 8-byte
header region and `read_bytes` never passes the end of the buffer, so the
header extraction `buffer[0..8].try_into().unwrap()` cannot panic and the
slices `buffer[read_bytes..]` and `buffer[8..]` are always in bounds: the
invariant holds initially, survives the header phase, and survives every
loop iteration. -/
theorem reader_invariant :
    ReaderInv initState ∧
      (∀ st, ReaderInv st → ReaderInv (headerPhase st)) ∧
      (∀ st pending s st' pending' evs slept, ReaderInv st →
        pumpStep st pending s = StepOut.cont st' pending' evs slept → ReaderInv st') :=
  ⟨readerInv_init, readerInv_headerPhase, readerInv_step⟩

theorem reader_invariant_witness :
    ReaderInv ⟨[2, 0, 0, 0, 0, 0, 0, 0], 8, 0⟩ ∧
      ReaderInv ⟨[2, 0, 0, 0, 0, 0, 0, 0], 0, 0⟩ := by
  refine ⟨by unfold ReaderInv; decide, ?_⟩
  exact reader_invariant.2.2 ⟨[2, 0, 0, 0, 0, 0, 0, 0], 8, 0⟩ [3, 4] (Sched.avail 2)
    ⟨[2, 0, 0, 0, 0, 0, 0, 0], 0, 0⟩ []
    [Event.dispatch (some [3, 4]) ⟨MessageType.MessageDeserializeError, none⟩] false
    (by unfold ReaderInv; decide) (by decide)

/-! Frame-stream simulation: the pump dispatches one event per frame. -/

lemma encodeFrame_length (p : List Nat) : (encodeFrame p).length = 8 + p.length := by
  simp [encodeFrame, encode_header_length]

lemma encodeFrame_take8 (p : List Nat) : (encodeFrame p).take 8 = encode_header p.length :=
  List.take_left' (encode_header_length p.length)

lemma encodeFrame_drop8 (p : List Nat) : (encodeFrame p).drop 8 = p :=
  List.drop_left' (encode_header_length p.length)

lemma headerPhase_canonical (p : List Nat) (rest : List (List Nat)) (k : Nat)
    (st : ReaderState) (pending : List Nat)
    (hp : 0 < p.length) (hp2 : p.length < 2 ^ 64)
    (hinv : FrameInv (p :: rest) k st pending) :
    (headerPhase st).read_bytes = k ∧
      (headerPhase st).buffer.take k = (encodeFrame p).take k ∧
      ((k < 8 ∧ (headerPhase st).buffer.length = 8 ∧ (headerPhase st).amount_to_read = 0) ∨
       (8 ≤ k ∧ k < 8 + p.length ∧ (headerPhase st).buffer.length = 8 + p.length ∧
         (headerPhase st).amount_to_read = p.length)) := by
  obtain ⟨hrb, htake, hpend, hdisj⟩ := hinv
  rcases hdisj with ⟨hk8, hlen, hamt⟩ | ⟨hk8, hklt, hlen, hamt⟩
  · by_cases hk : k < 8
    · rw [headerPhase_lt st (by omega)]
      exact ⟨hrb, htake, Or.inl ⟨hk, hlen, hamt⟩⟩
    · have hk8eq : k = 8 := by omega
      subst hk8eq
      have hdec : decode_header (st.buffer.take 8) = p.length := by
        rw [htake, encodeFrame_take8, decode_encode_header p.length hp2]
      rw [headerPhase_eq, if_pos (by omega : 8 ≤ st.read_bytes), hdec]
      have hne : st.buffer.length ≠ 8 + p.length := by omega
      rw [if_pos hne]
      dsimp only
      refine ⟨hrb, ?_, Or.inr ⟨le_refl 8, by omega, vecResize_length _ _, rfl⟩⟩
      rw [vecResize_take8 st.buffer _ (by omega) (by omega)]
      exact htake
  · have hdec : decode_header (st.buffer.take 8) = p.length := by
      have h1 : st.buffer.take 8 = (st.buffer.take k).take 8 := by
        rw [List.take_take, Nat.min_eq_left hk8]
      rw [h1, htake, List.take_take, Nat.min_eq_left hk8, encodeFrame_take8,
        decode_encode_header p.length hp2]
    rw [headerPhase_eq, if_pos (by omega : 8 ≤ st.read_bytes), hdec]
    have hne : ¬ st.buffer.length ≠ 8 + p.length := by omega
    rw [if_neg hne]
    exact ⟨hrb, htake, Or.inr ⟨hk8, hklt, hlen, rfl⟩⟩

lemma pumpStep_idle (st : ReaderState) (pending : List Nat) (s : Sched)
    (hs : s ≠ Sched.closed) (hinv : FrameInv [] 0 st pending) :
    ∃ st' slept, pumpStep st pending s = StepOut.cont st' pending [] slept ∧
      FrameInv [] 0 st' pending := by
  obtain ⟨-, hrb, hlen, hamt, hpend⟩ := hinv
  have hid : headerPhase st = st := headerPhase_lt st (by omega)
  cases s with
  | wouldBlock =>
    exact ⟨st, true, by rw [pumpStep_wouldBlock, hid], ⟨rfl, hrb, hlen, hamt, hpend⟩⟩
  | ioErr =>
    exact ⟨st, false, by rw [pumpStep_ioErr, hid], ⟨rfl, hrb, hlen, hamt, hpend⟩⟩
  | closed => exact absurd rfl hs
  | avail n =>
    refine ⟨st, true, ?_, ⟨rfl, hrb, hlen, hamt, hpend⟩⟩
    rw [pumpStep_avail st st pending n
      (min n (min (st.buffer.length - st.read_bytes) pending.length)) hid rfl,
      if_neg (by omega : ¬ st.buffer.length - st.read_bytes = 0),
      if_pos (by rw [hpend]; simp)]

lemma writeAt_frame (p : List Nat) (k size : Nat) (B pending S : List Nat)
    (htake : B.take k = (encodeFrame p).take k)
    (hpend : pending = (encodeFrame p).drop k ++ S)
    (hkle : k ≤ B.length)
    (hsle : size ≤ B.length - k)
    (hlenle : B.length ≤ 8 + p.length)
    (hple : size ≤ pending.length) :
    (writeAt B k (pending.take size)).take (k + size) = (encodeFrame p).take (k + size) ∧
      (writeAt B k (pending.take size)).length = B.length ∧
      pending.drop size = (encodeFrame p).drop (k + size) ++ S := by
  have hdropk : size ≤ ((encodeFrame p).drop k).length := by
    rw [List.length_drop, encodeFrame_length]
    omega
  have hblen : (pending.take size).length = size := by
    rw [List.length_take, Nat.min_eq_left hple]
  have hbytes : pending.take size = ((encodeFrame p).drop k).take size := by
    rw [hpend, List.take_append_of_le_length hdropk]
  refine ⟨?_, ?_, ?_⟩
  · have hwt := writeAt_take B (pending.take size) k hkle
    rw [hblen] at hwt
    rw [hwt, htake, hbytes, ← List.take_add]
  · exact writeAt_length B (pending.take size) k (by rw [hblen]; omega)
  · rw [hpend, List.drop_append_of_le_length hdropk, List.drop_drop]

lemma pumpStep_sim (p : List Nat) (rest : List (List Nat)) (k : Nat)
    (st : ReaderState) (pending : List Nat) (s : Sched) (hs : s ≠ Sched.closed)
    (hp : 0 < p.length) (hp2 : p.length < 2 ^ 64)
    (hinv : FrameInv (p :: rest) k st pending) :
    (∃ st' pending' k' slept, pumpStep st pending s = StepOut.cont st' pending' [] slept ∧
        FrameInv (p :: rest) k' st' pending') ∨
    (∃ st' pending', pumpStep st pending s =
        StepOut.cont st' pending' [Event.dispatch (some p) (dispatchMessage p)] false ∧
        FrameInv rest 0 st' pending') := by
  have hpend : pending = (encodeFrame p).drop k ++ frameStream rest := hinv.2.2.1
  obtain ⟨hrb1, htake1, hdisj⟩ := headerPhase_canonical p rest k st pending hp hp2 hinv
  have hinv1 : FrameInv (p :: rest) k (headerPhase st) pending := by
    refine ⟨hrb1, htake1, hpend, ?_⟩
    rcases hdisj with ⟨hk, hlen, hamt⟩ | h2
    · exact Or.inl ⟨by omega, hlen, hamt⟩
    · exact Or.inr h2
  cases s with
  | wouldBlock =>
    exact Or.inl ⟨headerPhase st, pending, k, true, pumpStep_wouldBlock st pending, hinv1⟩
  | ioErr =>
    exact Or.inl ⟨headerPhase st, pending, k, false, pumpStep_ioErr st pending, hinv1⟩
  | closed => exact absurd rfl hs
  | avail n =>
    have hklen : k < (headerPhase st).buffer.length := by
      rcases hdisj with ⟨hk, hlen, -⟩ | ⟨-, hklt, hlen, -⟩ <;> omega
    have hlenle : (headerPhase st).buffer.length ≤ 8 + p.length := by
      rcases hdisj with ⟨-, hlen, -⟩ | ⟨-, -, hlen, -⟩ <;> omega
    rw [pumpStep_avail st (headerPhase st) pending n
      (min n (min ((headerPhase st).buffer.length - (headerPhase st).read_bytes)
        pending.length)) rfl rfl,
      if_neg (by rw [hrb1]; omega :
        ¬ (headerPhase st).buffer.length - (headerPhase st).read_bytes = 0)]
    set size := min n (min ((headerPhase st).buffer.length - (headerPhase st).read_bytes)
      pending.length) with hsz
    by_cases hz : size = 0
    · rw [if_pos hz]
      exact Or.inl ⟨headerPhase st, pending, k, true, rfl, hinv1⟩
    · rw [if_neg hz]
      have hsle : size ≤ (headerPhase st).buffer.length - k := by
        rw [← hrb1]
        exact le_trans (Nat.min_le_right _ _) (Nat.min_le_left _ _)
      have hple : size ≤ pending.length :=
        le_trans (Nat.min_le_right _ _) (Nat.min_le_right _ _)
      have hkle : k ≤ (headerPhase st).buffer.length := by omega
      obtain ⟨hWtake, hWlen, hWpend⟩ := writeAt_frame p k size (headerPhase st).buffer
        pending (frameStream rest) htake1 hpend hkle hsle hlenle hple
      rw [hrb1]
      rcases hdisj with ⟨hk, hlen, hamt⟩ | ⟨hk8, hklt, hlen, hamt⟩
      · -- header phase: amount_to_read = 0, no dispatch possible
        rw [if_neg (by rw [hamt]; simp)]
        refine Or.inl ⟨_, _, k + size, false, rfl, ⟨rfl, ?_, hWpend, Or.inl ⟨?_, ?_, hamt⟩⟩⟩
        · exact hWtake
        · omega
        · rw [hWlen, hlen]
      · -- body phase: amount_to_read = p.length
        by_cases hfin : k + size = 8 + p.length
        · rw [if_pos ⟨by rw [hamt]; exact hp, by rw [hamt]; exact hfin⟩]
          have hbuf : writeAt (headerPhase st).buffer k (pending.take size) = encodeFrame p := by
            have hWL : (writeAt (headerPhase st).buffer k (pending.take size)).length =
                8 + p.length := by rw [hWlen, hlen]
            calc writeAt (headerPhase st).buffer k (pending.take size) =
                (writeAt (headerPhase st).buffer k (pending.take size)).take (k + size) := by
                  rw [show k + size = (writeAt (headerPhase st).buffer k
                    (pending.take size)).length from by rw [hWL]; omega, List.take_length]
              _ = (encodeFrame p).take (k + size) := hWtake
              _ = encodeFrame p := by
                  rw [show k + size = (encodeFrame p).length from by
                    rw [encodeFrame_length]; omega, List.take_length]
          have hpend2 : pending.drop size = frameStream rest := by
            rw [hWpend, List.drop_eq_nil_of_le (by rw [encodeFrame_length]; omega),
              List.nil_append]
          rw [hbuf, encodeFrame_drop8, hpend2]
          refine Or.inr ⟨_, _, rfl, ?_⟩
          cases rest with
          | nil => exact ⟨rfl, rfl, vecResize_length _ _, rfl, rfl⟩
          | cons q rest2 =>
            exact ⟨rfl, rfl, rfl, Or.inl ⟨by omega, vecResize_length _ _, rfl⟩⟩
        · rw [if_neg (by
            intro hc
            apply hfin
            have h2 := hc.2
            rw [hamt] at h2
            exact h2)]
          refine Or.inl ⟨_, _, k + size, false, rfl, ⟨rfl, hWtake, hWpend,
            Or.inr ⟨by omega, by omega, ?_, hamt⟩⟩⟩
          rw [hWlen, hlen]

lemma runPump_nil (st : ReaderState) (pending : List Nat) :
    runPump st pending [] = .pend st pending [] := rfl

lemma runPump_cons (st : ReaderState) (pending : List Nat) (s : Sched) (rest : List Sched) :
    runPump st pending (s :: rest) =
      (match pumpStep st pending s with
       | .exit0 evs => .exited evs
       | .cont st' p' evs _ =>
         match runPump st' p' rest with
         | .pend st2 p2 evs2 => .pend st2 p2 (evs ++ evs2)
         | .exited evs2 => .exited (evs ++ evs2)) := rfl

lemma runPump_sim (sched : List Sched) :
    ∀ (ps : List (List Nat)) (k : Nat) (st : ReaderState) (pending : List Nat),
      Sched.closed ∉ sched → GoodFrames ps → FrameInv ps k st pending →
      ∃ m k' st' pending',
        runPump st pending sched = RunOut.pend st' pending' (dispatchList (ps.take m)) ∧
          FrameInv (ps.drop m) k' st' pending' ∧ GoodFrames (ps.drop m) := by
  induction sched with
  | nil =>
    intro ps k st pending _ hg hinv
    exact ⟨0, k, st, pending, by simp [runPump_nil, dispatchList], by simpa, by simpa⟩
  | cons s rest ih =>
    intro ps k st pending hnotin hg hinv
    have hs : s ≠ Sched.closed := fun h => hnotin (h ▸ List.mem_cons_self s rest)
    have hrest : Sched.closed ∉ rest := fun h => hnotin (List.mem_cons_of_mem s h)
    match ps with
    | [] =>
      have hk := hinv.1
      subst hk
      obtain ⟨st', slept, hstep, hinv'⟩ := pumpStep_idle st pending s hs hinv
      obtain ⟨m, k', st2, p2, hrun, hinv2, hg2⟩ := ih [] 0 st' pending hrest hg hinv'
      refine ⟨m, k', st2, p2, ?_, hinv2, hg2⟩
      rw [runPump_cons, hstep]
      dsimp only
      rw [hrun]
      dsimp only
      rw [List.nil_append]
    | p :: rest2 =>
      have hpq := hg p (List.mem_cons_self p rest2)
      rcases pumpStep_sim p rest2 k st pending s hs hpq.1 hpq.2 hinv with
        ⟨st', pending', k2, slept, hstep, hinv'⟩ | ⟨st', pending', hstep, hinv'⟩
      · obtain ⟨m, k', st2, p2, hrun, hinv2, hg2⟩ :=
          ih (p :: rest2) k2 st' pending' hrest hg hinv'
        refine ⟨m, k', st2, p2, ?_, hinv2, hg2⟩
        rw [runPump_cons, hstep]
        dsimp only
        rw [hrun]
        dsimp only
        rw [List.nil_append]
      · have hg2 : GoodFrames rest2 := fun q hq => hg q (List.mem_cons_of_mem p hq)
        obtain ⟨m, k', st2, p2, hrun, hinv2, hg3⟩ := ih rest2 0 st' pending' hrest hg2 hinv'
        refine ⟨m + 1, k', st2, p2, ?_, hinv2, hg3⟩
        rw [runPump_cons, hstep]
        dsimp only
        rw [hrun]
        dsimp only
        rw [List.take_succ_cons]
        simp [dispatchList]

lemma dispatchList_append (a b : List (List Nat)) :
    dispatchList (a ++ b) = dispatchList a ++ dispatchList b := by
  simp [dispatchList]

lemma runPump_frames (frames : List (List Nat)) (sched : List Sched)
    (hgood : GoodFrames frames) (hsched : Sched.closed ∉ sched) :
    ∃ st' pending' evs,
      runPump initState (frameStream frames) sched = RunOut.pend st' pending' evs ∧
        (∃ tail, evs ++ tail = dispatchList frames) ∧
        (pending' = [] → evs = dispatchList frames) := by
  have hinv0 : FrameInv frames 0 initState (frameStream frames) := by
    cases frames with
    | nil => exact ⟨rfl, rfl, by simp [initState], rfl, rfl⟩
    | cons p rest =>
      exact ⟨rfl, rfl, rfl, Or.inl ⟨by omega, by simp [initState], rfl⟩⟩
  obtain ⟨m, k', st', pending', hrun, hinv', hg'⟩ :=
    runPump_sim sched frames 0 initState (frameStream frames) hsched hgood hinv0
  refine ⟨st', pending', dispatchList (frames.take m), hrun,
    ⟨dispatchList (frames.drop m), ?_⟩, ?_⟩
  · rw [← dispatchList_append, List.take_append_drop]
  · intro hpend
    have hdrop : frames.drop m = [] := by
      cases hd : frames.drop m with
      | nil => rfl
      | cons q rest2 =>
        rw [hd] at hinv' hg'
        obtain ⟨-, -, hpendeq, hdisj⟩ := hinv'
        rw [hpend] at hpendeq
        have hq := hg' q (List.mem_cons_self q rest2)
        have hklen : k' < (encodeFrame q).length := by
          rw [encodeFrame_length]
          rcases hdisj with ⟨hk8, -, -⟩ | ⟨-, hlt, -, -⟩
          · omega
          · exact hlt
        have hne : (encodeFrame q).drop k' ≠ [] := by
          intro hnil
          have hlnil := congrArg List.length hnil
          rw [List.length_drop] at hlnil
          simp at hlnil
          omega
        exact absurd (List.append_eq_nil.mp hpendeq.symm).1 hne
    have hlen0 := congrArg List.length hdrop
    rw [List.length_drop] at hlen0
    simp at hlen0
    rw [List.take_of_length_le (by omega)]

/-- Claim C4 counterexample: a back-to-back sequence consisting of one
zero-length-payload frame (8 zero header bytes) does not dispatch one frame
per payload.  Once the 8-byte header announcing a zero-length body is
buffered, the next read targets the empty slice `buffer[8..8]`, returns
`Ok(0)`, and is taken for a peer disconnect: the handler receives
`ConnectionDropped` and the process exits, instead of the frame dispatch the
claim requires. -/
theorem zero_length_frame_counterexample :
    runPump initState (frameStream [[]]) [Sched.avail 8, Sched.avail 8] =
      RunOut.exited [Event.dispatch none ⟨MessageType.ConnectionDropped, none⟩] ∧
      dispatchList [[]] =
        [Event.dispatch (some []) ⟨MessageType.MessageDeserializeError, none⟩] ∧
      (Event.dispatch none (⟨MessageType.ConnectionDropped, none⟩ : Message) ≠
        Event.dispatch (some []) ⟨MessageType.MessageDeserializeError, none⟩) :=
  ⟨by decide, by decide, by decide⟩

/-- Claim C4 (amended): for every sequence of back-to-back frames whose
payload lengths are positive (and representable, below `2 ^ 64`), and every
read schedule that does not close the connection, the pump dispatches
exactly one handler invocation per frame, in order, with each payload
reconstructed at its frame boundaries and no bytes leaking between frames:
the recorded dispatches are always a prefix of the per-frame dispatch list,
and equal the whole list once the stream is fully consumed. -/
theorem frames_dispatch_in_order (frames : List (List Nat)) (sched : List Sched)
    (hgood : ∀ p ∈ frames, 0 < p.length ∧ p.length < 2 ^ 64)
    (hsched : Sched.closed ∉ sched) :
    ∃ st' pending' evs,
      runPump initState (frameStream frames) sched = RunOut.pend st' pending' evs ∧
        (∃ tail, evs ++ tail = dispatchList frames) ∧
        (pending' = [] → evs = dispatchList frames) :=
  runPump_frames frames sched hgood hsched

theorem frames_dispatch_in_order_witness :
    (∀ p ∈ [[1]], 0 < p.length ∧ p.length < 2 ^ 64) ∧
      Sched.closed ∉ [Sched.avail 9, Sched.avail 9] ∧
      (∃ st' pending' evs,
        runPump initState (frameStream [[1]]) [Sched.avail 9, Sched.avail 9] =
          RunOut.pend st' pending' evs ∧
          (∃ tail, evs ++ tail = dispatchList [[1]]) ∧
          (pending' = [] → evs = dispatchList [[1]])) :=
  ⟨by decide, by decide, frames_dispatch_in_order [[1]] _ (by decide) (by decide)⟩

/-- Claim C6: when a complete frame's body fails bincode deserialization, the
pump dispatches exactly one `MessageDeserializeError` message to the handler
in that frame's slot instead of propagating the failure, the cycle resets,
and all subsequent frames are processed normally (their dispatches follow in
order). -/
theorem deserialize_error_dispatch (p : List Nat) (frames : List (List Nat))
    (sched : List Sched)
    (hfail : deserializeMessage p = none)
    (hgood : ∀ q ∈ p :: frames, 0 < q.length ∧ q.length < 2 ^ 64)
    (hsched : Sched.closed ∉ sched) :
    ∃ st' pending' evs,
      runPump initState (frameStream (p :: frames)) sched = RunOut.pend st' pending' evs ∧
        (∃ tail, evs ++ tail =
          Event.dispatch (some p) ⟨MessageType.MessageDeserializeError, none⟩ ::
            dispatchList frames) ∧
        (pending' = [] →
          evs = Event.dispatch (some p) ⟨MessageType.MessageDeserializeError, none⟩ ::
            dispatchList frames) := by
  have hdm : dispatchMessage p = ⟨MessageType.MessageDeserializeError, none⟩ := by
    unfold dispatchMessage
    rw [hfail]
  have hlist : dispatchList (p :: frames) =
      Event.dispatch (some p) ⟨MessageType.MessageDeserializeError, none⟩ ::
        dispatchList frames := by
    simp [dispatchList, hdm]
  obtain ⟨st', pending', evs, hrun, ⟨tail, htail⟩, hfull⟩ :=
    runPump_frames (p :: frames) sched hgood hsched
  rw [hlist] at htail
  refine ⟨st', pending', evs, hrun, ⟨tail, htail⟩, fun hp2 => ?_⟩
  rw [hfull hp2, hlist]

theorem deserialize_error_dispatch_witness :
    deserializeMessage [9, 9, 9, 9] = none ∧
      (∃ st' pending' evs,
        runPump initState (frameStream [[9, 9, 9, 9]]) [Sched.avail 12, Sched.avail 12] =
          RunOut.pend st' pending' evs ∧
          (∃ tail, evs ++ tail =
            Event.dispatch (some [9, 9, 9, 9]) ⟨MessageType.MessageDeserializeError, none⟩ ::
              dispatchList []) ∧
          (pending' = [] →
            evs = Event.dispatch (some [9, 9, 9, 9])
                ⟨MessageType.MessageDeserializeError, none⟩ ::
              dispatchList [])) :=
  ⟨by decide,
    deserialize_error_dispatch [9, 9, 9, 9] [] [Sched.avail 12, Sched.avail 12]
      (by decide) (by decide) (by decide)⟩

lemma pumpStep_exit0 (st : ReaderState) (pending : List Nat) (s : Sched) (evs : List Event)
    (h : pumpStep st pending s = StepOut.exit0 evs) : evs = [droppedEvent] := by
  cases s with
  | wouldBlock =>
    rw [pumpStep_wouldBlock] at h
    cases h
  | ioErr =>
    rw [pumpStep_ioErr] at h
    cases h
  | closed =>
    rw [pumpStep_closed] at h
    injection h with h2
    exact h2.symm
  | avail n =>
    rw [pumpStep_avail st (headerPhase st) pending n
      (min n (min ((headerPhase st).buffer.length - (headerPhase st).read_bytes)
        pending.length)) rfl rfl] at h
    split_ifs at h
    all_goals
      first
      | (injection h with h2; exact h2.symm)
      | cases h

/-- Claim C8 counterexample: the source pump loop contains no poll of any
shutdown coordinator.  With the claimed shutdown signal raised from the very
start, the pump still reads and dispatches a complete frame and keeps
looping instead of exiting: the signal is never consulted. -/
theorem shutdown_never_polled_counterexample :
    runPumpShutdown true initState (frameStream [[1]]) [Sched.avail 9, Sched.avail 9] =
      RunOut.pend ⟨[1, 0, 0, 0, 0, 0, 0, 0], 0, 0⟩ []
        [Event.dispatch (some [1]) ⟨MessageType.MessageDeserializeError, none⟩] := by
  decide

/-- Claim C8 (amended): the pump loop performs no shutdown poll at all — its
run is independent of the claimed shutdown signal — and the loop terminates
only through the `exit(0)` taken when a read returns zero bytes, which always
carries the `ConnectionDropped` handler invocation. -/
theorem pump_has_no_shutdown_poll (b : Bool) (st : ReaderState) (pending : List Nat)
    (sched : List Sched) :
    runPumpShutdown b st pending sched = runPump st pending sched ∧
      (∀ evs, runPump st pending sched = RunOut.exited evs → droppedEvent ∈ evs) := by
  refine ⟨rfl, ?_⟩
  induction sched generalizing st pending with
  | nil =>
    intro evs h
    rw [runPump_nil] at h
    cases h
  | cons s rest ih =>
    intro evs h
    rw [runPump_cons] at h
    cases hstep : pumpStep st pending s with
    | exit0 evs0 =>
      rw [hstep] at h
      dsimp only at h
      injection h with h2
      rw [← h2, pumpStep_exit0 st pending s evs0 hstep]
      exact List.mem_singleton.mpr rfl
    | cont st' p' evs1 slept =>
      rw [hstep] at h
      dsimp only at h
      cases hrec : runPump st' p' rest with
      | pend st2 p2 evs2 =>
        rw [hrec] at h
        cases h
      | exited evs2 =>
        rw [hrec] at h
        injection h with h2
        rw [← h2]
        exact List.mem_append_right evs1 (ih st' p' evs2 hrec)

theorem pump_has_no_shutdown_poll_witness :
    runPumpShutdown true initState [] [Sched.closed] = runPump initState [] [Sched.closed] ∧
      droppedEvent ∈ [droppedEvent] :=
  ⟨(pump_has_no_shutdown_poll true initState [] [Sched.closed]).1,
    (pump_has_no_shutdown_poll true initState [] [Sched.closed]).2 [droppedEvent] (by decide)⟩

end TcpClientModel
